import Mathlib

/-!
Verification of the `sqlx-with` derive generator (`src/lib.rs`).

Shallow embedding of the attribute-resolution and code-generation logic of
the `FromRow` derive macro:

* the character-level case conversions invoked at `src/lib.rs:182-188`
  (`heck`'s word-splitting `transform` algorithm for `to_snake_case`,
  `to_lower_camel_case`, `to_upper_camel_case`, `to_shouty_snake_case`,
  `to_kebab_case`, and Rust's `str::to_lowercase` / `str::to_uppercase`),
  modelled faithfully on ASCII character data (field identifiers);
* the `RenameAll` enumeration and its accepted tokens (`src/lib.rs:131-147`);
* the `darling`-backed input validation (`DeriveInput` with
  `supports(struct_named)`, required `db`, `src/lib.rs:149-166`);
* `expand_derive` itself: column-name resolution, per-field expression
  selection, `default` wrapping, and the left-to-right struct assembly
  (`src/lib.rs:168-224`);
* a small semantics for the generated expressions (`row.try_get`,
  custom decode calls, and the `ColumnNotFound`-intercepting `match`).

Definitions come first, theorems afterwards.
-/

/-!
ASCII character classes and case maps.  These mirror Rust's
`char::is_lowercase` / `is_uppercase` / `is_alphanumeric` and the ASCII case
maps used by `heck` and by `str::to_lowercase` / `str::to_uppercase`,
restricted to ASCII character data (the inputs here are Rust field
identifiers).
-/

def isLowAscii (c : Char) : Bool := decide (97 ≤ c.toNat ∧ c.toNat ≤ 122)

def isUpAscii (c : Char) : Bool := decide (65 ≤ c.toNat ∧ c.toNat ≤ 90)

def isDigitAscii (c : Char) : Bool := decide (48 ≤ c.toNat ∧ c.toNat ≤ 57)

def isAlnumAscii (c : Char) : Bool := isLowAscii c || isUpAscii c || isDigitAscii c

def toLowAscii (c : Char) : Char :=
  if isUpAscii c then Char.ofNat (c.toNat + 32) else c

def toUpAscii (c : Char) : Char :=
  if isLowAscii c then Char.ofNat (c.toNat - 32) else c

/-!
`heck`'s word-splitting `transform` algorithm.  `heck` first splits the
input on non-alphanumeric characters (Rust
`str::split(|c| !c.is_alphanumeric())`, which yields possibly-empty
segments), then scans each segment with a three-state mode machine,
emitting a word boundary after a lowercase-mode character followed by an
uppercase one, and before an uppercase character followed by a lowercase
one.
-/

inductive WordMode where
  | boundary
  | lowercaseMode
  | uppercaseMode
deriving DecidableEq

/-- The per-segment scanner of `heck::transform`: `mode` is the current
`WordMode`, `acc` the characters accumulated since the last boundary
(`word[init..i]` in the Rust loop). -/
def scanWords : WordMode → List Char → List Char → List (List Char)
  | _, _, [] => []
  | _, acc, [c] => [acc ++ [c]]
  | mode, acc, c :: next :: rest =>
    let nextMode :=
      if isLowAscii c then WordMode.lowercaseMode
      else if isUpAscii c then WordMode.uppercaseMode
      else mode
    if nextMode = WordMode.lowercaseMode ∧ isUpAscii next then
      (acc ++ [c]) :: scanWords WordMode.boundary [] (next :: rest)
    else if mode = WordMode.uppercaseMode ∧ isUpAscii c ∧ isLowAscii next then
      acc :: scanWords WordMode.boundary [c] (next :: rest)
    else
      scanWords nextMode (acc ++ [c]) (next :: rest)

def segmentWords (seg : List Char) : List (List Char) :=
  scanWords WordMode.boundary [] seg

/-- Rust `str::split` on the non-alphanumeric predicate: `n` separators
yield `n + 1` (possibly empty) segments. -/
def splitNonAlnum : List Char → List (List Char)
  | [] => [[]]
  | c :: rest =>
    if isAlnumAscii c then
      match splitNonAlnum rest with
      | [] => [[c]]
      | seg :: segs => (c :: seg) :: segs
    else
      [] :: splitNonAlnum rest

/-- The word list `heck::transform` iterates over. -/
def asciiWords (s : List Char) : List (List Char) :=
  ((splitNonAlnum s).map segmentWords).flatten

def lowerWord (w : List Char) : List Char := w.map toLowAscii

def upperWord (w : List Char) : List Char := w.map toUpAscii

/-- `heck`'s `capitalize`: uppercase the first character, lowercase the rest. -/
def capitalizeWord : List Char → List Char
  | [] => []
  | c :: rest => toUpAscii c :: rest.map toLowAscii

def joinSep (sep : Char) : List (List Char) → List Char
  | [] => []
  | [w] => w
  | w :: ws => w ++ sep :: joinSep sep ws

/-! The seven conversions invoked at `src/lib.rs:182-188`. -/

def to_snake_case (s : String) : String :=
  ⟨joinSep '_' ((asciiWords s.data).map lowerWord)⟩

def to_shouty_snake_case (s : String) : String :=
  ⟨joinSep '_' ((asciiWords s.data).map upperWord)⟩

def to_kebab_case (s : String) : String :=
  ⟨joinSep '-' ((asciiWords s.data).map lowerWord)⟩

def to_upper_camel_case (s : String) : String :=
  ⟨((asciiWords s.data).map capitalizeWord).flatten⟩

def to_lower_camel_case (s : String) : String :=
  match asciiWords s.data with
  | [] => ""
  | w :: ws => ⟨lowerWord w ++ (ws.map capitalizeWord).flatten⟩

/-- Rust `str::to_lowercase` (ASCII fragment). -/
def to_lowercase (s : String) : String := ⟨s.data.map toLowAscii⟩

/-- Rust `str::to_uppercase` (ASCII fragment). -/
def to_uppercase (s : String) : String := ⟨s.data.map toUpAscii⟩

namespace SqlxWith

/-!
`RenameAll` (`src/lib.rs:131-147`): a `darling::FromMeta` unit enum.  The
string value of `rename_all` must be one of the seven renamed variant
tokens; any other value is an unknown-value error.
-/

inductive RenameAll where
  | snake
  | lower
  | upper
  | camel
  | pascal
  | screamingSnake
  | kebab
deriving DecidableEq

def RenameAll.from_string : String → Option RenameAll := fun s =>
  if s = "snake_case" then some .snake
  else if s = "lowercase" then some .lower
  else if s = "UPPERCASE" then some .upper
  else if s = "camelCase" then some .camel
  else if s = "PascalCase" then some .pascal
  else if s = "SCREAMING_SNAKE_CASE" then some .screamingSnake
  else if s = "kebab-case" then some .kebab
  else none

/-- The `match rename_all` of `src/lib.rs:181-189`. -/
def RenameAll.apply : RenameAll → String → String
  | .snake, s => to_snake_case s
  | .lower, s => to_lowercase s
  | .upper, s => to_uppercase s
  | .camel, s => to_lower_camel_case s
  | .pascal, s => to_upper_camel_case s
  | .screamingSnake, s => to_shouty_snake_case s
  | .kebab, s => to_kebab_case s

/-!
The input model (`syn::DeriveInput` as far as the derive consumes it).
Container-level `#[sqlx_with(...)]` items are modelled as a key/value list
(the raw meta items `darling` walks); per-field configuration is carried on
the field, with `ident : Option String` exactly as in `syn::Field` and in
the `Field` struct of `src/lib.rs:159-166` (`dflt` is its `default` flag).
-/

structure Field where
  ident : Option String
  rename : Option String
  dflt : Bool
  decode : Option String
deriving DecidableEq

inductive SynFields where
  | named (fields : List Field)
  | unnamed (arity : Nat)
  | unit
deriving DecidableEq

inductive SynData where
  | dataStruct (fields : SynFields)
  | dataEnum
  | dataUnion
deriving DecidableEq

structure SynDeriveInput where
  ident : String
  attrs : List (String × String)
  data : SynData
deriving DecidableEq

/-! `darling` validation (`src/lib.rs:149-157`). -/

inductive DarlingError where
  | unsupportedShape
  | missingField (name : String)
  | duplicateField (name : String)
  | unknownValue (value : String)
deriving DecidableEq

/-- `darling::ast::Data<(), Field>`. -/
inductive DarlingData (F : Type) where
  | enumVariants (variants : List Unit)
  | structFields (fields : List F)
deriving DecidableEq

def DarlingData.take_struct {F : Type} : DarlingData F → Option (List F)
  | .enumVariants _ => none
  | .structFields fs => some fs

/-- The parsed `DeriveInput` struct of `src/lib.rs:149-157` (the `generics`
field carries no claim-relevant content and is omitted). -/
structure DeriveInput where
  ident : String
  data : DarlingData Field
  db : String
  rename_all : Option RenameAll
deriving DecidableEq

def parseDb (attrs : List (String × String)) : Except DarlingError String :=
  match attrs.filter (fun kv => kv.fst == "db") with
  | [] => .error (.missingField "db")
  | [kv] => .ok kv.snd
  | _ => .error (.duplicateField "db")

def parseRenameAll (attrs : List (String × String)) :
    Except DarlingError (Option RenameAll) :=
  match attrs.filter (fun kv => kv.fst == "rename_all") with
  | [] => .ok none
  | [kv] =>
    match RenameAll.from_string kv.snd with
    | some ra => .ok (some ra)
    | none => .error (.unknownValue kv.snd)
  | _ => .error (.duplicateField "rename_all")

/-- `darling::FromDeriveInput::from_derive_input` for the annotated struct:
`supports(struct_named)` rejects every non-named-fields shape, `db` is
required exactly once, `rename_all` is optional but must be a recognized
token. -/
def from_derive_input (input : SynDeriveInput) : Except DarlingError DeriveInput :=
  match input.data with
  | .dataStruct (.named fs) =>
    match parseDb input.attrs with
    | .error e => .error e
    | .ok db =>
      match parseRenameAll input.attrs with
      | .error e => .error e
      | .ok ra =>
        .ok { ident := input.ident, data := .structFields fs, db := db, rename_all := ra }
  | _ => .error .unsupportedShape

/-!
Column identity resolution and the generated expressions
(`src/lib.rs:168-224`).
-/

/-- The `column_name` chain of `src/lib.rs:176-192`: explicit `rename`,
else the container policy applied to the identifier, else the identifier. -/
def column_name (rename_all : Option RenameAll) (id : String)
    (rename : Option String) : String :=
  match rename with
  | some r => r
  | none =>
    match rename_all with
    | some ra => ra.apply id
    | none => id

/-- The shape of the generated per-field expression: `row.try_get(#name)`,
`#decode(#name, row)`, or the `ColumnNotFound`-intercepting `match` that
the `default` flag wraps around either of them. -/
inductive GenExpr where
  | tryGet (columnName : String)
  | decodeCall (path : String) (columnName : String)
  | defaultWrap (inner : GenExpr)
deriving DecidableEq

/-- `src/lib.rs:193-197`. -/
def column_get_expr (decode : Option String) (columnName : String) : GenExpr :=
  match decode with
  | some path => .decodeCall path columnName
  | none => .tryGet columnName

/-- `src/lib.rs:198-207` (without the trailing question-mark operator,
whose propagation is the struct-assembly semantics below). -/
def column_val_expr (dflt : Bool) (get : GenExpr) : GenExpr :=
  if dflt then .defaultWrap get else get

/-- Does a generated expression contain the direct typed lookup
`row.try_get` anywhere? -/
def GenExpr.uses_try_get : GenExpr → Bool
  | .tryGet _ => true
  | .decodeCall _ _ => false
  | .defaultWrap e => e.uses_try_get

structure FieldPlan where
  ident : String
  columnName : String
  valExpr : GenExpr
deriving DecidableEq

inductive ExpandError where
  | darling (e : DarlingError)
  | panic
deriving DecidableEq

/-- The loop body of `src/lib.rs:174-211`: `field.ident.unwrap()` panics on
a missing identifier; otherwise the field contributes
`#id: #column_val_expr` to the struct expression, in declared order. -/
def buildPlans (rename_all : Option RenameAll) :
    List Field → Except ExpandError (List FieldPlan)
  | [] => .ok []
  | f :: rest =>
    match f.ident with
    | none => .error .panic
    | some id =>
      let name := column_name rename_all id f.rename
      match buildPlans rename_all rest with
      | .error e => .error e
      | .ok ps =>
        .ok ({ ident := id, columnName := name,
               valExpr := column_val_expr f.dflt (column_get_expr f.decode name) } :: ps)

structure GenOutput where
  structIdent : String
  db : String
  plans : List FieldPlan
deriving DecidableEq

/-- `expand_derive` (`src/lib.rs:168-224`): darling validation, then the
unwrap of `take_struct`, then the per-field loop building the struct
expression of the emitted `from_row`. -/
def expand_derive (input : SynDeriveInput) : Except ExpandError GenOutput :=
  match from_derive_input input with
  | .error e => .error (.darling e)
  | .ok d =>
    match d.data.take_struct with
    | none => .error .panic
    | some fs =>
      match buildPlans d.rename_all fs with
      | .error e => .error e
      | .ok plans => .ok { structIdent := d.ident, db := d.db, plans := plans }

/-!
Runtime semantics of the generated `from_row` body.  The generated routine
runs against a row handle whose `try_get` returns `Result<T, sqlx::Error>`.
`V` stands for the decoded-value universe of the engine;
`DecodeError.columnNotFound` is `sqlx::Error::ColumnNotFound(_)`, the other
constructors are the remaining error variants the claims single out.
`dflt` is the `Default::default()` the generated `match` substitutes.
-/

inductive DecodeError where
  | columnNotFound (name : String)
  | typeMismatch (msg : String)
  | decodeFailure (msg : String)
deriving DecidableEq

structure Env (V : Type) where
  row : String → Except DecodeError V
  fns : String → String → (String → Except DecodeError V) → Except DecodeError V
  dflt : V

/-- Evaluation of one generated expression; the `defaultWrap` case is the
generated `match` of `src/lib.rs:199-204`, which intercepts exactly
`Err(ColumnNotFound(_))` and leaves every other outcome untouched. -/
def evalExpr {V : Type} (env : Env V) : GenExpr → Except DecodeError V
  | .tryGet name => env.row name
  | .decodeCall path name => env.fns path name env.row
  | .defaultWrap inner =>
    match evalExpr env inner with
    | .error (.columnNotFound _) => .ok env.dflt
    | val => val

/-- The struct expression of the generated `from_row`: field expressions
evaluated in declared order, the question-mark operator returning the first
error, a full record on success. -/
def evalStruct {V : Type} (env : Env V) :
    List FieldPlan → Except DecodeError (List (String × V))
  | [] => .ok []
  | fp :: rest =>
    match evalExpr env fp.valExpr with
    | .error e => .error e
    | .ok v =>
      match evalStruct env rest with
      | .error e => .error e
      | .ok vs => .ok ((fp.ident, v) :: vs)

/-! Shared concrete sample environments and inputs, used by witnesses. -/

def sampleRow : String → Except DecodeError Nat := fun n =>
  if n = "x" then .ok 7
  else if n = "t" then .error (DecodeError.typeMismatch "t")
  else .error (DecodeError.columnNotFound n)

def sampleEnv : Env Nat :=
  { row := sampleRow, fns := fun _ name row => row name, dflt := 0 }

def planX : FieldPlan := { ident := "a", columnName := "x", valExpr := GenExpr.tryGet "x" }

def planT : FieldPlan := { ident := "b", columnName := "t", valExpr := GenExpr.tryGet "t" }

def isStructNamed : SynData → Bool
  | .dataStruct (.named _) => true
  | _ => false

def namedIdentsPresent (input : SynDeriveInput) : Bool :=
  match input.data with
  | .dataStruct (.named fs) => fs.all (fun f => f.ident.isSome)
  | _ => true

def tupleInput : SynDeriveInput :=
  ⟨"Row", [("db", "sqlx::Sqlite")], .dataStruct (.unnamed 2)⟩

def namedInput : SynDeriveInput :=
  ⟨"Row", [("db", "sqlx::Sqlite")],
    .dataStruct (.named [⟨some "x", none, false, none⟩])⟩

end SqlxWith

/-!
Theorems.  First the character-level facts, then the word-scanner facts
used for the idempotence analysis of the case conversions, then the claim
theorems about the generator itself.
-/

theorem toNat_ofNat_small (n : Nat) (h : n < 55296) : (Char.ofNat n).toNat = n := by
  have hv : n.isValidChar := Or.inl h
  rw [Char.ofNat, dif_pos hv]
  simp [Char.ofNatAux, Char.toNat, UInt32.toNat]

theorem toNat_lt_of_isUp {c : Char} (h : isUpAscii c = true) :
    65 ≤ c.toNat ∧ c.toNat ≤ 90 := by
  simpa [isUpAscii] using h

theorem toNat_lt_of_isLow {c : Char} (h : isLowAscii c = true) :
    97 ≤ c.toNat ∧ c.toNat ≤ 122 := by
  simpa [isLowAscii] using h

theorem toNat_toLowAscii_of_isUp {c : Char} (h : isUpAscii c = true) :
    (toLowAscii c).toNat = c.toNat + 32 := by
  have := toNat_lt_of_isUp h
  rw [toLowAscii, if_pos h]
  exact toNat_ofNat_small _ (by omega)

theorem toNat_toUpAscii_of_isLow {c : Char} (h : isLowAscii c = true) :
    (toUpAscii c).toNat = c.toNat - 32 := by
  have := toNat_lt_of_isLow h
  rw [toUpAscii, if_pos h]
  exact toNat_ofNat_small _ (by omega)

theorem isUp_toLowAscii (c : Char) : isUpAscii (toLowAscii c) = false := by
  by_cases h : isUpAscii c = true
  · have h1 := toNat_lt_of_isUp h
    have h2 := toNat_toLowAscii_of_isUp h
    simp [isUpAscii, h2]
    omega
  · rw [toLowAscii, if_neg h]
    exact Bool.not_eq_true _ |>.mp h

theorem isLow_toUpAscii (c : Char) : isLowAscii (toUpAscii c) = false := by
  by_cases h : isLowAscii c = true
  · have h1 := toNat_lt_of_isLow h
    have h2 := toNat_toUpAscii_of_isLow h
    simp [isLowAscii, h2]
    omega
  · rw [toUpAscii, if_neg h]
    exact Bool.not_eq_true _ |>.mp h

theorem toLowAscii_idem (c : Char) : toLowAscii (toLowAscii c) = toLowAscii c := by
  rw [toLowAscii, if_neg]
  simp [isUp_toLowAscii]

theorem toUpAscii_idem (c : Char) : toUpAscii (toUpAscii c) = toUpAscii c := by
  rw [toUpAscii, if_neg]
  simp [isLow_toUpAscii]

theorem isAlnum_toLowAscii (c : Char) : isAlnumAscii (toLowAscii c) = isAlnumAscii c := by
  by_cases h : isUpAscii c = true
  · have h1 := toNat_lt_of_isUp h
    have h2 := toNat_toLowAscii_of_isUp h
    have hL : isLowAscii (toLowAscii c) = true := by
      simp only [isLowAscii, h2, decide_eq_true_eq]
      omega
    simp [isAlnumAscii, hL, h]
  · rw [toLowAscii, if_neg h]

theorem isAlnum_toUpAscii (c : Char) : isAlnumAscii (toUpAscii c) = isAlnumAscii c := by
  by_cases h : isLowAscii c = true
  · have h1 := toNat_lt_of_isLow h
    have h2 := toNat_toUpAscii_of_isLow h
    have hU : isUpAscii (toUpAscii c) = true := by
      simp only [isUpAscii, h2, decide_eq_true_eq]
      omega
    simp [isAlnumAscii, hU, h]
  · rw [toUpAscii, if_neg h]

theorem lowerWord_idem (w : List Char) : lowerWord (lowerWord w) = lowerWord w := by
  simp [lowerWord, List.map_map, Function.comp, toLowAscii_idem]

theorem upperWord_idem (w : List Char) : upperWord (upperWord w) = upperWord w := by
  simp [upperWord, List.map_map, Function.comp, toUpAscii_idem]

/-! Facts about the word scanner. -/

theorem scanWords_no_up (s : List Char) : ∀ (mode : WordMode) (acc : List Char),
    s ≠ [] → (∀ c ∈ s, isUpAscii c = false) → scanWords mode acc s = [acc ++ s] := by
  induction s with
  | nil => intro mode acc h _; exact absurd rfl h
  | cons c rest ih =>
    intro mode acc _ hup
    cases rest with
    | nil => rfl
    | cons next rest2 =>
      have hupc : isUpAscii c = false := hup c (by simp)
      have hupn : isUpAscii next = false := hup next (by simp)
      rw [scanWords]
      simp only [hupc, hupn, Bool.false_eq_true, and_false, if_false, false_and,
        and_false, if_false]
      rw [ih _ _ (by simp) (fun d hd => hup d (by simp [hd]))]
      simp

theorem scanWords_no_low (mode : WordMode) (acc s : List Char) :
    s ≠ [] → (∀ c ∈ s, isLowAscii c = false) → mode ≠ WordMode.lowercaseMode →
    scanWords mode acc s = [acc ++ s] := by
  induction mode, acc, s using scanWords.induct with
  | case1 mode acc => intro h _ _; exact absurd rfl h
  | case2 mode acc c => intro _ _ _; rfl
  | case3 mode acc c next rest nextMode h ih =>
    intro _ hlow hmode
    exfalso
    have hlc : isLowAscii c = false := hlow c (by simp)
    have hnm : nextMode ≠ WordMode.lowercaseMode := by
      show (if isLowAscii c = true then WordMode.lowercaseMode
        else if isUpAscii c = true then WordMode.uppercaseMode else mode) ≠
        WordMode.lowercaseMode
      rw [hlc]
      by_cases hup : isUpAscii c = true
      · simp [hup]
      · simp only [Bool.false_eq_true, if_false, if_neg hup]
        exact hmode
    exact hnm h.1
  | case4 mode acc c next rest nextMode h1 h2 ih =>
    intro _ hlow _
    exfalso
    have := hlow next (by simp)
    rw [this] at h2
    simp at h2
  | case5 mode acc c next rest nextMode h1 h2 ih =>
    intro _ hlow hmode
    have hlc : isLowAscii c = false := hlow c (by simp)
    have hnm : nextMode ≠ WordMode.lowercaseMode := by
      show (if isLowAscii c = true then WordMode.lowercaseMode
        else if isUpAscii c = true then WordMode.uppercaseMode else mode) ≠
        WordMode.lowercaseMode
      rw [hlc]
      by_cases hup : isUpAscii c = true
      · simp [hup]
      · simp only [Bool.false_eq_true, if_false, if_neg hup]
        exact hmode
    simp only [scanWords]
    rw [if_neg h1, if_neg h2]
    rw [ih (by simp) (fun d hd => hlow d (by simp [hd])) hnm]
    simp

theorem scanWords_chars (mode : WordMode) (acc s : List Char) :
    ∀ w ∈ scanWords mode acc s, ∀ c ∈ w, c ∈ acc ∨ c ∈ s := by
  induction mode, acc, s using scanWords.induct with
  | case1 mode acc => intro w hw; simp [scanWords] at hw
  | case2 mode acc c =>
    intro w hw d hd
    simp only [scanWords, List.mem_singleton] at hw
    subst hw
    rcases List.mem_append.mp hd with h | h
    · exact Or.inl h
    · exact Or.inr h
  | case3 mode acc c next rest nextMode h ih =>
    intro w hw d hd
    simp only [scanWords] at hw
    rw [if_pos h] at hw
    rcases List.mem_cons.mp hw with h2 | h2
    · subst h2
      rcases List.mem_append.mp hd with h3 | h3
      · exact Or.inl h3
      · rw [List.mem_singleton] at h3
        right
        simp [h3]
    · rcases ih w h2 d hd with h3 | h3
      · exact absurd h3 (List.not_mem_nil d)
      · exact Or.inr (List.mem_cons_of_mem c h3)
  | case4 mode acc c next rest nextMode h1 h2 ih =>
    intro w hw d hd
    simp only [scanWords] at hw
    rw [if_neg h1, if_pos h2] at hw
    rcases List.mem_cons.mp hw with h3 | h3
    · subst h3
      exact Or.inl hd
    · rcases ih w h3 d hd with h4 | h4
      · rw [List.mem_singleton] at h4
        right
        simp [h4]
      · exact Or.inr (List.mem_cons_of_mem c h4)
  | case5 mode acc c next rest nextMode h1 h2 ih =>
    intro w hw d hd
    simp only [scanWords] at hw
    rw [if_neg h1, if_neg h2] at hw
    rcases ih w hw d hd with h3 | h3
    · rcases List.mem_append.mp h3 with h4 | h4
      · exact Or.inl h4
      · rw [List.mem_singleton] at h4
        right
        simp [h4]
    · exact Or.inr (List.mem_cons_of_mem c h3)

theorem scanWords_ne_nil (mode : WordMode) (acc s : List Char) :
    (mode = WordMode.uppercaseMode → acc ≠ []) →
    ∀ w ∈ scanWords mode acc s, w ≠ [] := by
  induction mode, acc, s using scanWords.induct with
  | case1 mode acc => intro _ w hw; simp [scanWords] at hw
  | case2 mode acc c =>
    intro _ w hw
    simp only [scanWords, List.mem_singleton] at hw
    subst hw
    simp
  | case3 mode acc c next rest nextMode h ih =>
    intro _ w hw
    simp only [scanWords] at hw
    rw [if_pos h] at hw
    rcases List.mem_cons.mp hw with h2 | h2
    · subst h2; simp
    · exact ih (fun hb => absurd hb (by decide)) w h2
  | case4 mode acc c next rest nextMode h1 h2 ih =>
    intro hacc w hw
    simp only [scanWords] at hw
    rw [if_neg h1, if_pos h2] at hw
    rcases List.mem_cons.mp hw with h3 | h3
    · subst h3; exact hacc h2.1
    · exact ih (fun _ => by simp) w h3
  | case5 mode acc c next rest nextMode h1 h2 ih =>
    intro _ w hw
    simp only [scanWords] at hw
    rw [if_neg h1, if_neg h2] at hw
    exact ih (fun _ => by simp) w hw

/-! Facts about the non-alphanumeric split. -/

theorem splitNonAlnum_ne_nil (s : List Char) : splitNonAlnum s ≠ [] := by
  cases s with
  | nil => simp [splitNonAlnum]
  | cons c rest =>
    rw [splitNonAlnum]
    by_cases h : isAlnumAscii c = true
    · rw [if_pos h]
      cases hs : splitNonAlnum rest <;> simp
    · rw [if_neg h]
      simp

theorem splitNonAlnum_chars (l : List Char) :
    ∀ seg ∈ splitNonAlnum l, ∀ c ∈ seg, isAlnumAscii c = true := by
  induction l with
  | nil =>
    intro seg hseg c hc
    simp [splitNonAlnum] at hseg
    subst hseg
    simp at hc
  | cons d rest ih =>
    intro seg hseg c hc
    rw [splitNonAlnum] at hseg
    by_cases hd : isAlnumAscii d = true
    · rw [if_pos hd] at hseg
      cases hsr : splitNonAlnum rest with
      | nil => exact absurd hsr (splitNonAlnum_ne_nil rest)
      | cons s0 ss =>
        rw [hsr] at hseg
        simp only [List.mem_cons] at hseg
        rcases hseg with h | h
        · subst h
          rcases List.mem_cons.mp hc with h | h
          · subst h; exact hd
          · exact ih s0 (by rw [hsr]; simp) c h
        · exact ih seg (by rw [hsr]; simp [h]) c hc
    · rw [if_neg hd] at hseg
      rcases List.mem_cons.mp hseg with h | h
      · subst h; simp at hc
      · exact ih seg h c hc

theorem splitNonAlnum_all_alnum (w : List Char)
    (h : ∀ c ∈ w, isAlnumAscii c = true) : splitNonAlnum w = [w] := by
  induction w with
  | nil => rfl
  | cons c rest ih =>
    have hc := h c (by simp)
    have ihr := ih (fun d hd => h d (by simp [hd]))
    rw [splitNonAlnum, if_pos hc, ihr]

theorem splitNonAlnum_append_sep (w t : List Char) (sep : Char)
    (hw : ∀ c ∈ w, isAlnumAscii c = true) (hsep : isAlnumAscii sep = false) :
    splitNonAlnum (w ++ sep :: t) = w :: splitNonAlnum t := by
  induction w with
  | nil =>
    rw [List.nil_append, splitNonAlnum, if_neg (by simp [hsep])]
  | cons c rest ih =>
    have hc := hw c (by simp)
    have ihr := ih (fun d hd => hw d (by simp [hd]))
    rw [List.cons_append, splitNonAlnum, if_pos hc, ihr]

/-! Facts about `asciiWords`. -/

theorem asciiWords_all_alnum (l : List Char) :
    ∀ w ∈ asciiWords l, ∀ c ∈ w, isAlnumAscii c = true := by
  intro w hw c hc
  unfold asciiWords at hw
  obtain ⟨ws, hws, hwin⟩ := List.mem_flatten.mp hw
  obtain ⟨seg, hseg, rfl⟩ := List.mem_map.mp hws
  rcases scanWords_chars _ _ seg w hwin c hc with h | h
  · simp at h
  · exact splitNonAlnum_chars l seg hseg c h

theorem asciiWords_ne_nil (l : List Char) : ∀ w ∈ asciiWords l, w ≠ [] := by
  intro w hw
  unfold asciiWords at hw
  obtain ⟨ws, hws, hwin⟩ := List.mem_flatten.mp hw
  obtain ⟨seg, _, rfl⟩ := List.mem_map.mp hws
  exact scanWords_ne_nil _ _ seg (fun hb => absurd hb (by decide)) w hwin

theorem asciiWords_joinSep (sep : Char) (hsep : isAlnumAscii sep = false) :
    ∀ ws : List (List Char),
    (∀ w ∈ ws, (∀ c ∈ w, isAlnumAscii c = true) ∧ segmentWords w = [w]) →
    asciiWords (joinSep sep ws) = ws := by
  intro ws
  induction ws with
  | nil => intro _; rfl
  | cons w ws2 ih =>
    intro h
    cases ws2 with
    | nil =>
      obtain ⟨hal, hseg⟩ := h w (by simp)
      show asciiWords (joinSep sep [w]) = [w]
      rw [joinSep]
      unfold asciiWords
      rw [splitNonAlnum_all_alnum w hal]
      simp [hseg]
    | cons w2 ws3 =>
      obtain ⟨hal, hseg⟩ := h w (by simp)
      have ih2 := ih (fun v hv => h v (by simp [hv]))
      show asciiWords (w ++ sep :: joinSep sep (w2 :: ws3)) = w :: w2 :: ws3
      unfold asciiWords
      rw [splitNonAlnum_append_sep w (joinSep sep (w2 :: ws3)) sep hal hsep]
      unfold asciiWords at ih2
      simp only [List.map_cons, List.flatten_cons, hseg, ih2]
      simp

/-! Idempotence of the separator-based conversions: a generic lemma over
the word transformation, instantiated at `lowerWord` (snake, kebab) and
`upperWord` (shouty snake). -/

theorem joinSep_words_idem (sep : Char) (f : List Char → List Char)
    (hsep : isAlnumAscii sep = false)
    (hf : ∀ v, (∀ c ∈ v, isAlnumAscii c = true) → v ≠ [] →
      (∀ c ∈ f v, isAlnumAscii c = true) ∧ segmentWords (f v) = [f v])
    (hidem : ∀ v, f (f v) = f v)
    (l : List Char) :
    joinSep sep ((asciiWords (joinSep sep ((asciiWords l).map f))).map f)
      = joinSep sep ((asciiWords l).map f) := by
  have hws : ∀ w ∈ (asciiWords l).map f,
      (∀ c ∈ w, isAlnumAscii c = true) ∧ segmentWords w = [w] := by
    intro w hw
    obtain ⟨v, hv, rfl⟩ := List.mem_map.mp hw
    exact hf v (asciiWords_all_alnum l v hv) (asciiWords_ne_nil l v hv)
  rw [asciiWords_joinSep sep hsep _ hws, List.map_map]
  congr 1
  simp [Function.comp, hidem]

theorem lowerWord_scan_props (v : List Char)
    (hal : ∀ c ∈ v, isAlnumAscii c = true) (hne : v ≠ []) :
    (∀ c ∈ lowerWord v, isAlnumAscii c = true) ∧
      segmentWords (lowerWord v) = [lowerWord v] := by
  constructor
  · intro c hc
    obtain ⟨d, hd, rfl⟩ := List.mem_map.mp hc
    rw [isAlnum_toLowAscii]
    exact hal d hd
  · have hne2 : lowerWord v ≠ [] := by simp [lowerWord, hne]
    have hnoup : ∀ c ∈ lowerWord v, isUpAscii c = false := by
      intro c hc
      obtain ⟨d, _, rfl⟩ := List.mem_map.mp hc
      exact isUp_toLowAscii d
    have := scanWords_no_up (lowerWord v) WordMode.boundary [] hne2 hnoup
    simpa [segmentWords] using this

theorem upperWord_scan_props (v : List Char)
    (hal : ∀ c ∈ v, isAlnumAscii c = true) (hne : v ≠ []) :
    (∀ c ∈ upperWord v, isAlnumAscii c = true) ∧
      segmentWords (upperWord v) = [upperWord v] := by
  constructor
  · intro c hc
    obtain ⟨d, hd, rfl⟩ := List.mem_map.mp hc
    rw [isAlnum_toUpAscii]
    exact hal d hd
  · have hne2 : upperWord v ≠ [] := by simp [upperWord, hne]
    have hnolow : ∀ c ∈ upperWord v, isLowAscii c = false := by
      intro c hc
      obtain ⟨d, _, rfl⟩ := List.mem_map.mp hc
      exact isLow_toUpAscii d
    have := scanWords_no_low WordMode.boundary [] (upperWord v) hne2 hnolow (by decide)
    simpa [segmentWords] using this

theorem to_snake_case_idem (s : String) :
    to_snake_case (to_snake_case s) = to_snake_case s := by
  unfold to_snake_case
  exact congrArg String.mk
    (joinSep_words_idem '_' lowerWord (by decide) lowerWord_scan_props
      lowerWord_idem s.data)

theorem to_kebab_case_idem (s : String) :
    to_kebab_case (to_kebab_case s) = to_kebab_case s := by
  unfold to_kebab_case
  exact congrArg String.mk
    (joinSep_words_idem '-' lowerWord (by decide) lowerWord_scan_props
      lowerWord_idem s.data)

theorem to_shouty_snake_case_idem (s : String) :
    to_shouty_snake_case (to_shouty_snake_case s) = to_shouty_snake_case s := by
  unfold to_shouty_snake_case
  exact congrArg String.mk
    (joinSep_words_idem '_' upperWord (by decide) upperWord_scan_props
      upperWord_idem s.data)

theorem to_lowercase_idem (s : String) :
    to_lowercase (to_lowercase s) = to_lowercase s := by
  unfold to_lowercase
  exact congrArg String.mk (by simp [List.map_map, Function.comp, toLowAscii_idem])

theorem to_uppercase_idem (s : String) :
    to_uppercase (to_uppercase s) = to_uppercase s := by
  unfold to_uppercase
  exact congrArg String.mk (by simp [List.map_map, Function.comp, toUpAscii_idem])

namespace SqlxWith

/-! Claim theorems. -/

/-- C1: the resolved column name follows strict precedence: an explicit
`rename` is used verbatim; otherwise the container `rename_all` policy is
applied to the field identifier; otherwise the identifier itself is used.
With container policy kebab-case and field rename "hi" on `foo_bar`, the
resolved name is "hi". -/
theorem column_name_strict_precedence (ra : Option RenameAll) (id : String) :
    (∀ r : String, column_name ra id (some r) = r) ∧
    (∀ p : RenameAll, column_name (some p) id none = p.apply id) ∧
    column_name none id none = id ∧
    column_name (some RenameAll.kebab) "foo_bar" (some "hi") = "hi" :=
  ⟨fun _ => rfl, fun _ => rfl, rfl, rfl⟩

/-- C6: with no container policy and no per-field rename, the resolved
column name is exactly the field identifier. -/
theorem column_name_identity_law (id : String) :
    column_name none id none = id := rfl

/-- C4: a field with a custom `decode` reference generates a call of that
function on (resolved column name, row handle) and nothing else: the
generated expression is the decode call, contains no `row.try_get`
anywhere (also under the `default` wrap), and evaluates to the custom
function's result on the row. -/
theorem decode_fully_overrides_try_get {V : Type} (env : Env V)
    (path name : String) (dflt : Bool) :
    column_get_expr (some path) name = GenExpr.decodeCall path name ∧
    GenExpr.uses_try_get (column_val_expr dflt (column_get_expr (some path) name)) = false ∧
    evalExpr env (column_get_expr (some path) name) = env.fns path name env.row := by
  cases dflt <;> exact ⟨rfl, rfl, rfl⟩

/-- C2: the `default` wrap intercepts exactly `ColumnNotFound` and replaces
it by the default value; every other error propagates unchanged and
successes pass through, uniformly for the direct lookup and for a custom
decode call (the inner expression is `column_get_expr` for an arbitrary
`decode` option). -/
theorem default_intercepts_only_missing_column {V : Type} (env : Env V)
    (decode : Option String) (name : String) :
    (∀ n, evalExpr env (column_get_expr decode name) = .error (DecodeError.columnNotFound n) →
      evalExpr env (column_val_expr true (column_get_expr decode name)) = .ok env.dflt) ∧
    (∀ e, (∀ n, e ≠ DecodeError.columnNotFound n) →
      evalExpr env (column_get_expr decode name) = .error e →
      evalExpr env (column_val_expr true (column_get_expr decode name)) = .error e) ∧
    (∀ v, evalExpr env (column_get_expr decode name) = .ok v →
      evalExpr env (column_val_expr true (column_get_expr decode name)) = .ok v) := by
  refine ⟨?_, ?_, ?_⟩
  · intro n h
    simp only [column_val_expr, if_true, evalExpr, h]
  · intro e hne h
    simp only [column_val_expr, if_true, evalExpr, h]
    cases e with
    | columnNotFound n => exact absurd rfl (hne n)
    | typeMismatch m => rfl
    | decodeFailure m => rfl
  · intro v h
    simp only [column_val_expr, if_true, evalExpr, h]

theorem default_intercepts_only_missing_column_witness :
    evalExpr sampleEnv (column_val_expr true (column_get_expr none "z")) = .ok 0 ∧
    evalExpr sampleEnv (column_val_expr true (column_get_expr (some "f") "z")) = .ok 0 ∧
    evalExpr sampleEnv (column_val_expr true (column_get_expr none "t")) =
      .error (DecodeError.typeMismatch "t") :=
  ⟨(default_intercepts_only_missing_column sampleEnv none "z").1 "z" rfl,
   (default_intercepts_only_missing_column sampleEnv (some "f") "z").1 "z" rfl,
   (default_intercepts_only_missing_column sampleEnv none "t").2.1 _
     (fun n => by simp) rfl⟩

/-- C3: the generated struct expression evaluates field expressions in
declared order; the first field whose expression errors determines the
result, independently of everything declared after it; if every field
succeeds, the full record (all fields, in order) is returned. -/
theorem struct_assembly_first_error_wins {V : Type} :
    (∀ (env : Env V) (pre : List FieldPlan) (fp : FieldPlan) (post : List FieldPlan)
      (e : DecodeError),
      (∀ p ∈ pre, ∃ v, evalExpr env p.valExpr = .ok v) →
      evalExpr env fp.valExpr = .error e →
      evalStruct env (pre ++ fp :: post) = .error e) ∧
    (∀ (env : Env V) (fps : List FieldPlan) (f : FieldPlan → V),
      (∀ p ∈ fps, evalExpr env p.valExpr = .ok (f p)) →
      evalStruct env fps = .ok (fps.map (fun p => (p.ident, f p)))) := by
  constructor
  · intro env pre fp post e hpre hfp
    induction pre with
    | nil => simp [evalStruct, hfp]
    | cons q qs ih =>
      obtain ⟨v, hv⟩ := hpre q (by simp)
      have hrest := ih (fun p hp => hpre p (by simp [hp]))
      simp [evalStruct, hv, hrest]
  · intro env fps f h
    induction fps with
    | nil => rfl
    | cons q qs ih =>
      have hq := h q (by simp)
      have hrest := ih (fun p hp => h p (by simp [hp]))
      simp [evalStruct, hq, hrest]

theorem struct_assembly_first_error_wins_witness :
    evalStruct sampleEnv [planX, planT, planX] = .error (DecodeError.typeMismatch "t") ∧
    evalStruct sampleEnv [planX, planX] = .ok [("a", 7), ("a", 7)] := by
  constructor
  · exact struct_assembly_first_error_wins.1 sampleEnv [planX] planT [planX] _
      (by intro p hp; simp at hp; subst hp; exact ⟨7, rfl⟩) rfl
  · exact struct_assembly_first_error_wins.2 sampleEnv [planX, planX] (fun _ => 7)
      (by intro p hp; simp at hp; subst hp; rfl)

/-- C5 counterexample: there is no "identity" token among the accepted
`rename_all` values; identity naming is expressed by omitting the
attribute, so the enumerated set of accepted tokens has seven members, not
eight. -/
theorem rename_all_has_no_identity_token :
    RenameAll.from_string "identity" = none := by decide

/-- C5 (amended): `rename_all` accepts exactly the seven tokens
`snake_case`, `lowercase`, `UPPERCASE`, `camelCase`, `PascalCase`,
`SCREAMING_SNAKE_CASE`, `kebab-case`; every other string value is rejected
with the unrecognized-value diagnostic. -/
theorem rename_all_accepts_exactly_seven_tokens (s : String) :
    (RenameAll.from_string s).isSome = true ↔
      s = "snake_case" ∨ s = "lowercase" ∨ s = "UPPERCASE" ∨ s = "camelCase" ∨
      s = "PascalCase" ∨ s = "SCREAMING_SNAKE_CASE" ∨ s = "kebab-case" := by
  unfold RenameAll.from_string
  split_ifs <;> simp_all

theorem rename_all_accepts_exactly_seven_tokens_witness :
    (RenameAll.from_string "snake_case").isSome = true :=
  (rename_all_accepts_exactly_seven_tokens "snake_case").mpr (Or.inl rfl)

/-- C7: any input whose data is not a named-fields struct (tuple struct,
unit struct, enum, union) makes the whole generation fail with the
unsupported-shape diagnostic, producing no routine. -/
theorem non_named_aggregate_fails (input : SynDeriveInput)
    (h : isStructNamed input.data = false) :
    from_derive_input input = .error DarlingError.unsupportedShape ∧
    expand_derive input = .error (ExpandError.darling DarlingError.unsupportedShape) := by
  have hfd : from_derive_input input = .error DarlingError.unsupportedShape := by
    unfold from_derive_input
    cases hd : input.data with
    | dataStruct fs =>
      cases fs with
      | named fs2 => rw [hd] at h; simp [isStructNamed] at h
      | unnamed n => rfl
      | unit => rfl
    | dataEnum => rfl
    | dataUnion => rfl
  exact ⟨hfd, by unfold expand_derive; rw [hfd]⟩

theorem non_named_aggregate_fails_witness :
    expand_derive tupleInput =
      .error (ExpandError.darling DarlingError.unsupportedShape) :=
  (non_named_aggregate_fails tupleInput rfl).2

/-- C8: on a named-fields struct, generation requires exactly one
container-level `db` item: zero occurrences fail with a missing-field
diagnostic and two or more fail with a duplicate-field diagnostic. -/
theorem db_required_exactly_once (input : SynDeriveInput) (fs : List Field)
    (hdata : input.data = SynData.dataStruct (SynFields.named fs)) :
    ((input.attrs.filter (fun kv => kv.fst == "db")) = [] →
      expand_derive input = .error (ExpandError.darling (DarlingError.missingField "db"))) ∧
    (2 ≤ (input.attrs.filter (fun kv => kv.fst == "db")).length →
      expand_derive input = .error (ExpandError.darling (DarlingError.duplicateField "db"))) := by
  constructor
  · intro hnil
    have hdb : parseDb input.attrs = .error (DarlingError.missingField "db") := by
      unfold parseDb
      rw [hnil]
    unfold expand_derive from_derive_input
    rw [hdata, hdb]
  · intro hlen
    have hdb : parseDb input.attrs = .error (DarlingError.duplicateField "db") := by
      unfold parseDb
      cases hf : input.attrs.filter (fun kv => kv.fst == "db") with
      | nil => rw [hf] at hlen; simp at hlen
      | cons kv1 tl =>
        cases tl with
        | nil => rw [hf] at hlen; simp at hlen
        | cons kv2 rest => rfl
    unfold expand_derive from_derive_input
    rw [hdata, hdb]

theorem db_required_exactly_once_witness :
    expand_derive ⟨"Row", [], .dataStruct (.named [])⟩ =
      .error (ExpandError.darling (DarlingError.missingField "db")) ∧
    expand_derive ⟨"Row", [("db", "a"), ("db", "b")], .dataStruct (.named [])⟩ =
      .error (ExpandError.darling (DarlingError.duplicateField "db")) :=
  ⟨(db_required_exactly_once ⟨"Row", [], .dataStruct (.named [])⟩ [] rfl).1 rfl,
   (db_required_exactly_once ⟨"Row", [("db", "a"), ("db", "b")], .dataStruct (.named [])⟩
     [] rfl).2 (by decide)⟩

theorem buildPlans_no_panic (ra : Option RenameAll) (fs : List Field)
    (h : ∀ f ∈ fs, f.ident.isSome = true) :
    ∀ e, buildPlans ra fs ≠ .error e := by
  induction fs with
  | nil => intro e; simp [buildPlans]
  | cons f rest ih =>
    intro e
    have hid := h f (by simp)
    obtain ⟨id, hid2⟩ := Option.isSome_iff_exists.mp hid
    have ihh := ih (fun g hg => h g (by simp [hg]))
    simp only [buildPlans, hid2]
    cases hb : buildPlans ra rest with
    | error e2 => exact absurd hb (ihh e2)
    | ok ps => simp

theorem from_derive_input_ok_shape (input : SynDeriveInput) (d : DeriveInput)
    (h : from_derive_input input = .ok d) :
    ∃ fs, input.data = SynData.dataStruct (SynFields.named fs) ∧
      d.data = DarlingData.structFields fs := by
  unfold from_derive_input at h
  cases hdata : input.data with
  | dataStruct sf =>
    cases sf with
    | named fs =>
      simp only [hdata] at h
      refine ⟨fs, rfl, ?_⟩
      cases hdb : parseDb input.attrs with
      | error e => simp [hdb] at h
      | ok db =>
        simp only [hdb] at h
        cases hra : parseRenameAll input.attrs with
        | error e => simp [hra] at h
        | ok ra =>
          simp only [hra, Except.ok.injEq] at h
          rw [← h]
    | unnamed n => simp [hdata] at h
    | unit => simp [hdata] at h
  | dataEnum => simp [hdata] at h
  | dataUnion => simp [hdata] at h

/-- C10: the `unwrap` calls inside `expand_derive` cannot panic: whenever
`from_derive_input` succeeds, `data.take_struct()` is `Some`, and under the
`syn` parse invariant that named-fields structs carry an identifier on
every field, the whole expansion never reaches a panic. -/
theorem expand_derive_unwraps_never_panic (input : SynDeriveInput) :
    (∀ d, from_derive_input input = .ok d →
      (DarlingData.take_struct d.data).isSome = true) ∧
    (namedIdentsPresent input = true →
      expand_derive input ≠ .error ExpandError.panic) := by
  constructor
  · intro d h
    obtain ⟨fs, _, hd⟩ := from_derive_input_ok_shape input d h
    simp [hd, DarlingData.take_struct]
  · intro hinv
    unfold expand_derive
    cases hfd : from_derive_input input with
    | error e => simp
    | ok d =>
      obtain ⟨fs, hin, hd⟩ := from_derive_input_ok_shape input d hfd
      have hids : ∀ f ∈ fs, f.ident.isSome = true := by
        unfold namedIdentsPresent at hinv
        rw [hin] at hinv
        simpa [List.all_eq_true] using hinv
      simp only [hd, DarlingData.take_struct]
      cases hb : buildPlans d.rename_all fs with
      | error e => exact absurd hb (buildPlans_no_panic d.rename_all fs hids e)
      | ok ps => simp [hb]

theorem expand_derive_unwraps_never_panic_witness :
    expand_derive namedInput ≠ .error ExpandError.panic :=
  (expand_derive_unwraps_never_panic namedInput).2 (by decide)

/-- C9 counterexample: the PascalCase conversion is not idempotent on
already-converted input: `foo` converts "a_b_c" to "ABC", and converting
"ABC" again yields "Abc", not "ABC" (heck treats a run of uppercase
letters as one acronym word and re-capitalizes it). -/
theorem pascal_case_not_idempotent_on_converted_input :
    RenameAll.apply RenameAll.pascal "a_b_c" = "ABC" ∧
    RenameAll.apply RenameAll.pascal (RenameAll.apply RenameAll.pascal "a_b_c")
      ≠ RenameAll.apply RenameAll.pascal "a_b_c" := by
  constructor
  · decide
  · decide

/-- C9 (amended): the conversion functions of the five policies whose
output words carry no case mixture (snake_case, lowercase, UPPERCASE,
SCREAMING_SNAKE_CASE, kebab-case) are idempotent on every input, hence on
already-converted input; camelCase and PascalCase are not (see the
counterexample). -/
theorem case_conversion_idempotent_unicase (p : RenameAll) (s : String)
    (h1 : p ≠ RenameAll.camel) (h2 : p ≠ RenameAll.pascal) :
    p.apply (p.apply s) = p.apply s := by
  cases p with
  | snake => exact to_snake_case_idem s
  | lower => exact to_lowercase_idem s
  | upper => exact to_uppercase_idem s
  | camel => exact absurd rfl h1
  | pascal => exact absurd rfl h2
  | screamingSnake => exact to_shouty_snake_case_idem s
  | kebab => exact to_kebab_case_idem s

theorem case_conversion_idempotent_unicase_witness :
    RenameAll.apply RenameAll.snake (RenameAll.apply RenameAll.snake "foo_bar")
      = RenameAll.apply RenameAll.snake "foo_bar" :=
  case_conversion_idempotent_unicase RenameAll.snake "foo_bar"
    (by decide) (by decide)

end SqlxWith
